import Mathlib

/-!
# Verification of the bytify-impl literal-to-byte compiler

Shallow embedding of `src/bytify-impl/src/lib.rs`: a compile-time
literal-to-byte-sequence compiler.  Pure functions of the source become
Lean functions; the growing output `Vec<u8>` becomes a returned byte
list that the dispatcher appends in input order; fallible paths return
`Except Error`.  Machine integers (`u64` magnitudes, the `as` casts and
the wrapping arithmetic used for two's complement) are modelled as `ℕ`
with explicit `% 2 ^ w`; `f64` float magnitudes are modelled as exact
rationals `ℚ`.
-/

namespace Bytify

/-- Source enum `Endianness` (lib.rs lines 12-16). -/
inductive Endianness
  | LE
  | BE
  deriving DecidableEq

/-- Integer width suffix of a literal (syn's `IntSuffix` as used by the
source).  The spec's data model scopes `ExplicitSuffix` to `None` plus
the eight fixed widths modelled here; syn's remaining variants
(`Usize`, `Isize`, `U128`, `I128`) only ever reach the same catch-all
error arms as any unlisted pair. -/
inductive IntSuffix
  | None
  | U8
  | U16
  | U32
  | U64
  | I8
  | I16
  | I32
  | I64
  deriving DecidableEq

/-- Float width suffix of a literal (syn's `FloatSuffix`). -/
inductive FloatSuffix
  | None
  | F32
  | F64
  deriving DecidableEq

/-- The Rust `Debug` rendering of an `IntSuffix`, as produced by the
source's `format!("\x7b:?\x7d", s)` when building error payloads. -/
def IntSuffix.debugStr : IntSuffix → String
  | .None => ("None")
  | .U8 => ("U8")
  | .U16 => ("U16")
  | .U32 => ("U32")
  | .U64 => ("U64")
  | .I8 => ("I8")
  | .I16 => ("I16")
  | .I32 => ("I32")
  | .I64 => ("I64")

/-- The Rust `Debug` rendering of a `FloatSuffix`. -/
def FloatSuffix.debugStr : FloatSuffix → String
  | .None => ("None")
  | .F32 => ("F32")
  | .F64 => ("F64")

/-- An integer literal as the source consumes it: `int.value()` is the
`u64` magnitude (modelled as `ℕ`, bounded by `2 ^ 64` where it
matters), `int.suffix()` the explicit width annotation, and `text` the
token text used in error payloads. -/
structure LitInt where
  text : String
  value : ℕ
  suffix : IntSuffix
  deriving DecidableEq

/-- A float literal: `float.value()` is the `f64` magnitude (modelled
as an exact rational), plus the explicit suffix and the token text. -/
structure LitFloat where
  text : String
  value : ℚ
  suffix : FloatSuffix
  deriving DecidableEq

/-- Unary operators of `syn::UnOp`. -/
inductive UnOp
  | Deref
  | Not
  | Neg
  deriving DecidableEq

/-- Literal values (`syn::Lit` as matched by the source): a character
is a Unicode scalar value, a string a list of Unicode scalar values;
`Other` stands for the remaining `Lit` variants (byte, byte string,
bool, verbatim), which the source only ever routes to the
`UnsupportedLit` catch-all. -/
inductive Lit
  | Char (c : ℕ)
  | Str (s : List ℕ)
  | Int (int : LitInt)
  | Float (float : LitFloat)
  | Other (text : String)
  deriving DecidableEq

/-- Expression nodes (`syn::Expr` as matched by the source): a literal,
a unary-operator application, a type-ascription node `expr : ty` (the
source's `Expr::Type`, abused as the byte-order tag; `Type` is a Lean
keyword, hence the primed name), or any other shape. -/
inductive Expr
  | Lit (lit : Lit)
  | Unary (op : UnOp) (expr : Expr)
  | Type' (expr : Expr) (ty : String)
  | Other (text : String)
  deriving DecidableEq

/-- The source's closed error taxonomy (lib.rs lines 24-42).  Payloads
that the source renders to `String` only for display keep their
structured form where a claim inspects them; `IOError` models the
source's `IO` variant (never produced here: appending to a `Vec` cannot
fail). -/
inductive Error
  | UnsupportedPrefixedExpression (op : UnOp) (expr : Expr)
  | UnsupportedExpression (expr : Expr)
  | UnsupportedLit (lit : Lit)
  | UnsupportedNumberSuffix (s : String)
  | InvalidInput
  | InvalidEndianness (tag : String)
  | IncompatibleNumberSuffix (text : String) (negative : Bool) (given : String) (requested : String)
  | IOError
  deriving DecidableEq

/-- Build-time default byte order (lib.rs lines 18-22): `LE` unless the
`default-big-endian` cargo feature is set; the feature flag is the
`Bool` argument. -/
def DEFAULT_ENDIANNESS (default_big_endian : Bool) : Endianness :=
  if default_big_endian then .BE else .LE

/-! ## Width/suffix inference for integers (`int_to_suffix`) -/

/-- First step of `int_to_suffix` (lib.rs lines 74-89): the minimal
natural width from the magnitude alone, signed when the literal is
negated. -/
def int_minimal (negative : Bool) (num_bits : ℕ) : IntSuffix :=
  if negative then
    if num_bits > 0x80000000 then .I64
    else if num_bits > 0x8000 then .I32
    else if num_bits > 0x80 then .I16
    else .I8
  else
    if num_bits > 0xFFFFFFFF then .U64
    else if num_bits > 0xFFFF then .U32
    else if num_bits > 0xFF then .U16
    else .U8

/-- Second step of `int_to_suffix` (lib.rs lines 90-135): reconcile the
minimal width `s` with the literal's explicit suffix.  Rust's guarded
match arms (`if num_bits < 0x80` etc.) fall through to the catch-all
error when the guard fails, which the `if`-expressions reproduce. -/
def int_reconcile (negative : Bool) (int : LitInt) (s : IntSuffix) : Except Error IntSuffix :=
  let num_bits := int.value
  match s, int.suffix with
  | u, .None => .ok u
  | .U8, .U8 => .ok .U8
  | .U8, .U16 => .ok .U16
  | .U8, .U32 => .ok .U32
  | .U8, .U64 => .ok .U64
  | .U16, .U16 => .ok .U16
  | .U16, .U32 => .ok .U32
  | .U16, .U64 => .ok .U64
  | .U32, .U32 => .ok .U32
  | .U32, .U64 => .ok .U64
  | .U64, .U64 => .ok .U64
  | .I8, .I8 => .ok .I8
  | .I8, .I16 => .ok .I16
  | .I8, .I32 => .ok .I32
  | .I8, .I64 => .ok .I64
  | .I16, .I16 => .ok .I16
  | .I16, .I32 => .ok .I32
  | .I16, .I64 => .ok .I64
  | .I32, .I32 => .ok .I32
  | .I32, .I64 => .ok .I64
  | .I64, .I64 => .ok .I64
  | .U8, .I8 =>
    if num_bits < 0x80 then .ok .I8
    else .error (.IncompatibleNumberSuffix int.text negative (IntSuffix.U8).debugStr (IntSuffix.I8).debugStr)
  | .U16, .I16 =>
    if num_bits < 0x8000 then .ok .I16
    else .error (.IncompatibleNumberSuffix int.text negative (IntSuffix.U16).debugStr (IntSuffix.I16).debugStr)
  | .U32, .I32 =>
    if num_bits < 0x80000000 then .ok .I32
    else .error (.IncompatibleNumberSuffix int.text negative (IntSuffix.U32).debugStr (IntSuffix.I32).debugStr)
  | .U64, .I64 =>
    if num_bits < 0x8000000000000000 then .ok .I64
    else .error (.IncompatibleNumberSuffix int.text negative (IntSuffix.U64).debugStr (IntSuffix.I64).debugStr)
  | .U8, .I16 => .ok .I16
  | .U8, .I32 => .ok .I32
  | .U8, .I64 => .ok .I64
  | .U16, .I32 => .ok .I32
  | .U16, .I64 => .ok .I64
  | .U32, .I64 => .ok .I64
  | given, requested =>
    .error (.IncompatibleNumberSuffix int.text negative given.debugStr requested.debugStr)

/-- `int_to_suffix` (lib.rs lines 73-137): resolve the encoding width
of an integer literal. -/
def int_to_suffix (negative : Bool) (int : LitInt) : Except Error IntSuffix :=
  int_reconcile negative int (int_minimal negative int.value)

/-! ## Byte-level encoding helpers

The source writes through the external `byteorder` crate
(`write_u8`/`write_u16::<O>`/...): a `w`-byte value is appended least
significant byte first for `LE` and most significant byte first for
`BE`.  The `as uN` truncating casts are the `% 256` / division steps of
`leBytes`, and the `!x` / `wrapping_add` operations of the negative
paths are `wrapNot` / `wrappingAdd` below. -/

/-- The `w` least-significant-first bytes of `v` (truncating `v` to
`w` bytes, as the source's `as uN` casts do). -/
def leBytes : ℕ → ℕ → List ℕ
  | 0, _ => []
  | w + 1, v => v % 256 :: leBytes w (v / 256)

/-- Append a `w`-byte value in the active byte order (models
`byteorder`'s `write_uN::<O>`). -/
def writeBytes (ord : Endianness) (w v : ℕ) : List ℕ :=
  match ord with
  | .LE => leBytes w v
  | .BE => (leBytes w v).reverse

/-- Bitwise complement at bit width `w` (Rust's `!` on a `uN` value). -/
def wrapNot (w v : ℕ) : ℕ :=
  2 ^ w - 1 - v % 2 ^ w

/-- Rust's `wrapping_add` at bit width `w`. -/
def wrappingAdd (w a b : ℕ) : ℕ :=
  (a + b) % 2 ^ w

/-- Reinterpret a byte run as an unsigned integer in the given byte
order (the decoding direction used to state the claims). -/
def leValue : List ℕ → ℕ
  | [] => 0
  | b :: rest => b % 256 + 256 * leValue rest

/-- Decode bytes at the given byte order. -/
def decodeBytes (ord : Endianness) (bs : List ℕ) : ℕ :=
  match ord with
  | .LE => leValue bs
  | .BE => leValue bs.reverse

/-- `bytify_implementation_int` (lib.rs lines 139-189): resolve the
width and append the encoded integer.  The `?` on `int_to_suffix`
becomes the outer match; each `write_*` call becomes the returned byte
run. -/
def bytify_implementation_int (ord : Endianness) (negative : Bool) (int : LitInt) : Except Error (List ℕ) :=
  let num_bits := int.value
  match int_to_suffix negative int with
  | .error e => .error e
  | .ok num_bits_suffix =>
    match num_bits_suffix with
    | .U8 => .ok (writeBytes ord 1 num_bits)
    | .I8 =>
      if negative then .ok (writeBytes ord 1 (wrappingAdd 8 (wrapNot 8 num_bits) 1))
      else .ok (writeBytes ord 1 num_bits)
    | .U16 => .ok (writeBytes ord 2 num_bits)
    | .I16 =>
      if negative then .ok (writeBytes ord 2 (wrappingAdd 16 (wrapNot 16 num_bits) 1))
      else .ok (writeBytes ord 2 num_bits)
    | .U32 => .ok (writeBytes ord 4 num_bits)
    | .I32 =>
      if negative then .ok (writeBytes ord 4 (wrappingAdd 32 (wrapNot 32 num_bits) 1))
      else .ok (writeBytes ord 4 num_bits)
    | .U64 => .ok (writeBytes ord 8 num_bits)
    | .I64 =>
      if negative then .ok (writeBytes ord 8 (wrappingAdd 64 (wrapNot 64 num_bits) 1))
      else .ok (writeBytes ord 8 num_bits)
    | .None => .error (.UnsupportedNumberSuffix (IntSuffix.None).debugStr)

/-! ## Width/suffix inference and encoding for floats

The source compares the `f64` magnitude against the literal
`3.40282347e+38`; float magnitudes are modelled as exact rationals, so
the threshold is the exact rational denoted by that decimal,
`340282347` followed by thirty zeros (written as one numeral so that
concrete comparisons reduce).  The external `byteorder` crate's `write_f32`/`write_f64`
append the IEEE-754 binary32/binary64 bit pattern of the value in the
active byte order; `floatBits` below reproduces that bit pattern
(round to nearest, ties to even) so that the encoders stay executable.
No claim inspects the float bit patterns themselves, only their byte
counts. -/

/-- `float_to_suffix` (lib.rs lines 191-214): resolve the encoding
width of a float literal.  Note the success table: only the
`(F32, None)`, `(F64, None)` and `(F32, F64)` pairs resolve; every
other pair, including the identical pairs `(F32, F32)` and
`(F64, F64)`, reaches the catch-all error arm. -/
def float_to_suffix (negative : Bool) (float : LitFloat) : Except Error FloatSuffix :=
  let num_bits := float.value
  let s : FloatSuffix :=
    if num_bits > 340282347000000000000000000000000000000 then .F64 else .F32
  match s, float.suffix with
  | u, .None => .ok u
  | .F32, .F64 => .ok .F64
  | given, requested =>
    .error (.IncompatibleNumberSuffix float.text negative given.debugStr requested.debugStr)

/-- Round a rational to the nearest integer, ties to even. -/
def roundHalfEven (q : ℚ) : ℤ :=
  let f := ⌊q⌋
  let r := q - (f : ℚ)
  if r < 1 / 2 then f
  else if 1 / 2 < r then f + 1
  else if f % 2 = 0 then f else f + 1

/-- `⌊log₂ q⌋` for a positive rational `q`. -/
def qLog2 (q : ℚ) : ℤ :=
  let n := q.num.toNat
  let d := q.den
  if d ≤ n then (Nat.log 2 (n / d) : ℤ)
  else -(Nat.clog 2 ((d + n - 1) / n) : ℤ)

/-- IEEE-754 bit pattern of a nonnegative magnitude at exponent width
`E` and mantissa width `M` (binary32: `E = 8`, `M = 23`; binary64:
`E = 11`, `M = 52`), with round to nearest, ties to even; overflow goes
to infinity and tiny values to the subnormal range. -/
def floatMagBits (E M : ℕ) (q : ℚ) : ℕ :=
  if q ≤ 0 then 0 else
  let bias : ℤ := 2 ^ (E - 1) - 1
  let e₀ := qLog2 q
  let sig₀ := (roundHalfEven (q / 2 ^ e₀ * 2 ^ (M : ℕ))).toNat
  let p := if sig₀ = 2 ^ (M + 1) then (e₀ + 1, (2 : ℕ) ^ M) else (e₀, sig₀)
  let e := p.1
  let sig := p.2
  if (2 : ℤ) ^ E - 1 ≤ e + bias then ((2 : ℕ) ^ E - 1) * 2 ^ M
  else if e + bias ≤ 0 then (roundHalfEven (q * 2 ^ ((M : ℤ) + bias - 1))).toNat
  else (e + bias).toNat * 2 ^ M + (sig - 2 ^ M)

/-- IEEE-754 bit pattern of a signed rational value (sign bit plus
magnitude bits). -/
def floatBits (E M : ℕ) (v : ℚ) : ℕ :=
  if v < 0 then 2 ^ (E + M) + floatMagBits E M (-v) else floatMagBits E M v

/-- `bytify_implementation_float` (lib.rs lines 216-240): resolve the
width and append the encoded float; a negated literal negates the
magnitude before encoding (the `as f32` cast is the binary32 rounding
inside `floatBits 8 23`). -/
def bytify_implementation_float (ord : Endianness) (negative : Bool) (float : LitFloat) : Except Error (List ℕ) :=
  let num_bits := float.value
  match float_to_suffix negative float with
  | .error e => .error e
  | .ok num_bits_suffix =>
    match num_bits_suffix with
    | .F32 =>
      if negative then .ok (writeBytes ord 4 (floatBits 8 23 (-num_bits)))
      else .ok (writeBytes ord 4 (floatBits 8 23 num_bits))
    | .F64 =>
      if negative then .ok (writeBytes ord 8 (floatBits 11 52 (-num_bits)))
      else .ok (writeBytes ord 8 (floatBits 11 52 num_bits))
    | .None => .error (.UnsupportedNumberSuffix (FloatSuffix.None).debugStr)

/-! ## Non-numeric encoding and the dispatcher -/

/-- Rust's `char::len_utf8` for a Unicode scalar value. -/
def len_utf8 (c : ℕ) : ℕ :=
  if c < 0x80 then 1
  else if c < 0x800 then 2
  else if c < 0x10000 then 3
  else 4

/-- Rust's `char::encode_utf8` for a Unicode scalar value. -/
def encode_utf8 (c : ℕ) : List ℕ :=
  if c < 0x80 then [c]
  else if c < 0x800 then
    [0xC0 ||| (c >>> 6), 0x80 ||| (c &&& 0x3F)]
  else if c < 0x10000 then
    [0xE0 ||| (c >>> 12), 0x80 ||| ((c >>> 6) &&& 0x3F), 0x80 ||| (c &&& 0x3F)]
  else
    [0xF0 ||| (c >>> 18), 0x80 ||| ((c >>> 12) &&& 0x3F), 0x80 ||| ((c >>> 6) &&& 0x3F), 0x80 ||| (c &&& 0x3F)]

/-- `bytify_implementation_element` (lib.rs lines 242-263): encode one
plain (un-negated) literal.  A character is written as its UTF-8 bytes,
a string as the UTF-8 bytes of its scalar values in order (Rust's
`str::as_bytes`); neither consults the byte order. -/
def bytify_implementation_element (ord : Endianness) (lit : Lit) : Except Error (List ℕ) :=
  match lit with
  | .Char c => .ok (encode_utf8 c)
  | .Str s => .ok (s.flatMap encode_utf8)
  | .Int int => bytify_implementation_int ord false int
  | .Float float => bytify_implementation_float ord false float
  | .Other t => .error (.UnsupportedLit (.Other t))

/-- The inner per-element match of `bytify_implementation` (lib.rs
lines 301-347), after the byte order for the element has been fixed:
plain literals route to the element encoder, a single-level `-` on an
integer or float literal routes to the numeric encoders with
`negative = true`, and every other shape produces the corresponding
error. -/
def bytify_tagged (ord : Endianness) (expr : Expr) : Except Error (List ℕ) :=
  match expr with
  | .Lit lit => bytify_implementation_element ord lit
  | .Unary op inner =>
    match op with
    | .Neg =>
      match inner with
      | .Lit lit =>
        match lit with
        | .Int int => bytify_implementation_int ord true int
        | .Float float => bytify_implementation_float ord true float
        | lit => .error (.UnsupportedLit lit)
      | e2 => .error (.UnsupportedPrefixedExpression .Neg e2)
    | op => .error (.UnsupportedPrefixedExpression op inner)
  | e2 => .error (.UnsupportedExpression e2)

/-- The per-element byte-order step of `bytify_implementation` (lib.rs
lines 282-300): a type-ascription node is the byte-order tag, matched
against exactly the four spellings `BE`/`be`/`LE`/`le` and applied to
its inner expression only; every other tag fails, and an untagged
element uses the default order. -/
def bytify_element (dflt : Endianness) (expr : Expr) : Except Error (List ℕ) :=
  match expr with
  | .Type' inner ty =>
    if ty = ("BE") ∨ ty = ("be") then bytify_tagged .BE inner
    else if ty = ("LE") ∨ ty = ("le") then bytify_tagged .LE inner
    else .error (.InvalidEndianness ty)
  | e => bytify_tagged dflt e

/-- `bytify_implementation` (lib.rs lines 279-354): process the
comma-separated element list in order, appending each element's bytes
to the output buffer and stopping at the first failure. -/
def bytify_implementation (dflt : Endianness) : List Expr → Except Error (List ℕ)
  | [] => .ok []
  | expr :: rest =>
    match bytify_element dflt expr with
    | .error e => .error e
    | .ok bs =>
      match bytify_implementation dflt rest with
      | .error e => .error e
      | .ok bs2 => .ok (bs ++ bs2)

/-! ## Spec-side definitions

These definitions transcribe the specification's wording (minimal-width
tables, the suffix-compatibility rule, resolved widths in bytes) so the
behaviour of the source-derived functions above can be compared against
them. -/

/-- Spec wording: "Unsigned minimal width: U8 if M ≤ 0xFF, U16 if
M ≤ 0xFFFF, U32 if M ≤ 0xFFFFFFFF, else U64." -/
def specUnsignedMinimal (M : ℕ) : IntSuffix :=
  if M ≤ 0xFF then .U8
  else if M ≤ 0xFFFF then .U16
  else if M ≤ 0xFFFFFFFF then .U32
  else .U64

/-- Spec wording: "Signed minimal width: I8 if M ≤ 0x80, I16 if
M ≤ 0x8000, I32 if M ≤ 0x80000000, else I64." -/
def specSignedMinimal (M : ℕ) : IntSuffix :=
  if M ≤ 0x80 then .I8
  else if M ≤ 0x8000 then .I16
  else if M ≤ 0x80000000 then .I32
  else .I64

/-- Width in bytes of a resolved integer suffix. -/
def IntSuffix.numBytes : IntSuffix → ℕ
  | .None => 0
  | .U8 | .I8 => 1
  | .U16 | .I16 => 2
  | .U32 | .I32 => 4
  | .U64 | .I64 => 8

/-- Unsigned-family test on a suffix. -/
def IntSuffix.isUnsigned : IntSuffix → Bool
  | .U8 | .U16 | .U32 | .U64 => true
  | _ => false

/-- Signed-family test on a suffix. -/
def IntSuffix.isSigned : IntSuffix → Bool
  | .I8 | .I16 | .I32 | .I64 => true
  | _ => false

/-- The suffix-compatibility rule in the spec's (amended) wording: an
explicit suffix is accepted exactly when it is a same-family widening
(or identity), or the minimal width is unsigned and the explicit suffix
is signed and either strictly wider, or of the same bit size with the
magnitude strictly below `2 ^ (bits - 1)`. -/
def compatibleSuffix (m s : IntSuffix) (v : ℕ) : Bool :=
  ((m.isUnsigned && s.isUnsigned || m.isSigned && s.isSigned) && decide (m.numBytes ≤ s.numBytes))
    || (m.isUnsigned && s.isSigned &&
        (decide (m.numBytes < s.numBytes)
          || (decide (m.numBytes = s.numBytes) && decide (v < 2 ^ (8 * m.numBytes - 1)))))

/-- Width in bytes of a resolved float suffix. -/
def FloatSuffix.numBytes : FloatSuffix → ℕ
  | .None => 0
  | .F32 => 4
  | .F64 => 8

/-- Spec wording for floats: "F64 if the magnitude exceeds the maximum
finite value representable in F32 (the source's hardcoded
`3.40282347e+38`), else F32." -/
def specFloatMinimal (M : ℚ) : FloatSuffix :=
  if M > 340282347000000000000000000000000000000 then .F64 else .F32

/-- UTF-8 byte length of a string of Unicode scalar values. -/
def utf8Len (s : List ℕ) : ℕ :=
  (s.map len_utf8).sum

/-- Discriminator for the `UnsupportedPrefixedExpression` error kind. -/
def Error.isUnsupportedPrefixedExpression : Error → Bool
  | .UnsupportedPrefixedExpression _ _ => true
  | _ => false

/-- A literal is textual when it is a character or string literal. -/
def Lit.isTextual : Lit → Bool
  | .Char _ | .Str _ => true
  | _ => false

/-- An expression is tagged when it is a type-ascription (byte-order
tag) node. -/
def Expr.isTagged : Expr → Bool
  | .Type' _ _ => true
  | _ => false

end Bytify

deriving instance DecidableEq for Except

namespace Bytify

/-! ## Byte-level lemmas -/

theorem leBytes_length (w v : ℕ) : (leBytes w v).length = w := by
  induction w generalizing v with
  | zero => rfl
  | succ w ih => simp [leBytes, ih]

theorem writeBytes_length (ord : Endianness) (w v : ℕ) : (writeBytes ord w v).length = w := by
  cases ord <;> simp [writeBytes, leBytes_length]

theorem leValue_leBytes (w v : ℕ) : leValue (leBytes w v) = v % 256 ^ w := by
  induction w generalizing v with
  | zero => simp [leBytes, leValue, Nat.mod_one]
  | succ w ih =>
    calc leValue (leBytes (w + 1) v)
        = v % 256 % 256 + 256 * (v / 256 % 256 ^ w) := by simp [leBytes, leValue, ih]
      _ = v % 256 + 256 * (v / 256 % 256 ^ w) := by
          rw [Nat.mod_mod_of_dvd v dvd_rfl]
      _ = v % (256 * 256 ^ w) := (Nat.mod_mul).symm
      _ = v % 256 ^ (w + 1) := by rw [pow_succ, mul_comm]

theorem decodeBytes_writeBytes (ord : Endianness) (w v : ℕ) :
    decodeBytes ord (writeBytes ord w v) = v % 256 ^ w := by
  cases ord with
  | LE => simp [decodeBytes, writeBytes, leValue_leBytes]
  | BE => simp [decodeBytes, writeBytes, leValue_leBytes]

/-! ## Inference lemmas -/

theorem int_reconcile_none (neg : Bool) (t : String) (v : ℕ) (m : IntSuffix) :
    int_reconcile neg ⟨t, v, .None⟩ m = .ok m := by
  cases m <;> rfl

theorem int_minimal_false_eq (v : ℕ) : int_minimal false v = specUnsignedMinimal v := by
  unfold int_minimal specUnsignedMinimal
  rw [if_neg (by simp)]
  split_ifs <;> first | rfl | (exfalso; omega)

theorem int_minimal_true_eq (v : ℕ) : int_minimal true v = specSignedMinimal v := by
  unfold int_minimal specSignedMinimal
  rw [if_pos rfl]
  split_ifs <;> first | rfl | (exfalso; omega)

/-! ## Claim C1 -/

/-- **C1**: for every non-negative (un-negated) integer literal with
magnitude `v` and no explicit suffix, the resolved encoding width is
the minimal unsigned width (U8 if `v ≤ 0xFF`, U16 if `v ≤ 0xFFFF`, U32
if `v ≤ 0xFFFFFFFF`, else U64), the emitted byte run has exactly that
width (1/2/4/8 bytes), and reinterpreting the emitted bytes as an
unsigned integer at that width in the active byte order yields `v`
again. -/
theorem claim1 (ord : Endianness) (t : String) (v : ℕ) (hv : v < 2 ^ 64) :
    int_to_suffix false ⟨t, v, .None⟩ = .ok (specUnsignedMinimal v) ∧
    ∃ bs, bytify_implementation_int ord false ⟨t, v, .None⟩ = .ok bs ∧
      bs.length = (specUnsignedMinimal v).numBytes ∧
      decodeBytes ord bs = v := by
  have hres : int_to_suffix false ⟨t, v, .None⟩ = .ok (specUnsignedMinimal v) := by
    rw [int_to_suffix, int_reconcile_none, int_minimal_false_eq]
  refine ⟨hres, ?_⟩
  by_cases h1 : v ≤ 0xFF
  · have hm : specUnsignedMinimal v = .U8 := by simp [specUnsignedMinimal, h1]
    rw [hm] at hres
    rw [hm]
    refine ⟨writeBytes ord 1 v, ?_, writeBytes_length ord 1 v, ?_⟩
    · simp [bytify_implementation_int, hres, hm]
    · rw [decodeBytes_writeBytes]
      exact Nat.mod_eq_of_lt (by norm_num; omega)
  · by_cases h2 : v ≤ 0xFFFF
    · have hm : specUnsignedMinimal v = .U16 := by simp [specUnsignedMinimal, h1, h2]
      rw [hm] at hres
      rw [hm]
      refine ⟨writeBytes ord 2 v, ?_, writeBytes_length ord 2 v, ?_⟩
      · simp [bytify_implementation_int, hres, hm]
      · rw [decodeBytes_writeBytes]
        exact Nat.mod_eq_of_lt (by norm_num; omega)
    · by_cases h3 : v ≤ 0xFFFFFFFF
      · have hm : specUnsignedMinimal v = .U32 := by simp [specUnsignedMinimal, h1, h2, h3]
        rw [hm] at hres
        rw [hm]
        refine ⟨writeBytes ord 4 v, ?_, writeBytes_length ord 4 v, ?_⟩
        · simp [bytify_implementation_int, hres, hm]
        · rw [decodeBytes_writeBytes]
          exact Nat.mod_eq_of_lt (by norm_num; omega)
      · have hm : specUnsignedMinimal v = .U64 := by simp [specUnsignedMinimal, h1, h2, h3]
        rw [hm] at hres
        rw [hm]
        refine ⟨writeBytes ord 8 v, ?_, writeBytes_length ord 8 v, ?_⟩
        · simp [bytify_implementation_int, hres, hm]
        · rw [decodeBytes_writeBytes]
          exact Nat.mod_eq_of_lt (by norm_num; omega)

/-- Witness for C1 at `v = 300`: the resolved width is U16 and the
little-endian bytes decode back to 300. -/
theorem claim1_witness :
    (300 : ℕ) < 2 ^ 64 ∧
    int_to_suffix false ⟨"300", 300, .None⟩ = .ok (specUnsignedMinimal 300) ∧
    ∃ bs, bytify_implementation_int .LE false ⟨"300", 300, .None⟩ = .ok bs ∧
      bs.length = (specUnsignedMinimal 300).numBytes ∧
      decodeBytes .LE bs = 300 :=
  ⟨by norm_num, claim1 .LE ("300") 300 (by norm_num)⟩

/-! ## Claim C2 -/

/-- **C2**: for every negated integer literal with magnitude `v` and no
explicit suffix, the resolved width is the minimal signed width (I8 if
`v ≤ 0x80`, I16 if `v ≤ 0x8000`, I32 if `v ≤ 0x80000000`, else I64),
and the emitted bytes, reinterpreted at that width `w` (in bits) in the
active byte order, are the bitwise complement of `v` truncated to `w`
bits, plus one, with wraparound arithmetic — which equals the
two's-complement representation `(2 ^ w - v % 2 ^ w) % 2 ^ w` of `-v`
at width `w`. -/
theorem claim2 (ord : Endianness) (t : String) (v : ℕ) (_hv : v < 2 ^ 64) :
    int_to_suffix true ⟨t, v, .None⟩ = .ok (specSignedMinimal v) ∧
    ∃ bs, bytify_implementation_int ord true ⟨t, v, .None⟩ = .ok bs ∧
      bs.length = (specSignedMinimal v).numBytes ∧
      decodeBytes ord bs
        = ((2 ^ (8 * (specSignedMinimal v).numBytes) - 1 - v % 2 ^ (8 * (specSignedMinimal v).numBytes)) + 1)
            % 2 ^ (8 * (specSignedMinimal v).numBytes) ∧
      decodeBytes ord bs
        = (2 ^ (8 * (specSignedMinimal v).numBytes) - v % 2 ^ (8 * (specSignedMinimal v).numBytes))
            % 2 ^ (8 * (specSignedMinimal v).numBytes) := by
  have hres : int_to_suffix true ⟨t, v, .None⟩ = .ok (specSignedMinimal v) := by
    rw [int_to_suffix, int_reconcile_none, int_minimal_true_eq]
  refine ⟨hres, ?_⟩
  have hdec : ∀ k, decodeBytes ord (writeBytes ord k (wrappingAdd (8 * k) (wrapNot (8 * k) v) 1))
      = ((2 ^ (8 * k) - 1 - v % 2 ^ (8 * k)) + 1) % 2 ^ (8 * k) := by
    intro k
    rw [decodeBytes_writeBytes]
    simp only [wrappingAdd, wrapNot]
    have h : (256 : ℕ) ^ k = 2 ^ (8 * k) := by rw [pow_mul]; norm_num
    rw [h, Nat.mod_mod_of_dvd _ dvd_rfl]
  have key : ∀ p q : ℕ, q < p → ((p - 1 - q) + 1) % p = (p - q) % p := by
    intro p q h
    congr 1
    omega
  have hform : ∀ w, ((2 ^ w - 1 - v % 2 ^ w) + 1) % 2 ^ w = (2 ^ w - v % 2 ^ w) % 2 ^ w := by
    intro w
    exact key _ _ (Nat.mod_lt v (pow_pos (by norm_num) w))
  by_cases h1 : v ≤ 0x80
  · have hm : specSignedMinimal v = .I8 := by simp [specSignedMinimal, h1]
    rw [hm] at hres
    rw [hm]
    refine ⟨writeBytes ord 1 (wrappingAdd 8 (wrapNot 8 v) 1), ?_, writeBytes_length ord 1 _,
      hdec 1, hform (8 * 1) ▸ hdec 1⟩
    simp [bytify_implementation_int, hres]
  · by_cases h2 : v ≤ 0x8000
    · have hm : specSignedMinimal v = .I16 := by simp [specSignedMinimal, h1, h2]
      rw [hm] at hres
      rw [hm]
      refine ⟨writeBytes ord 2 (wrappingAdd 16 (wrapNot 16 v) 1), ?_, writeBytes_length ord 2 _,
        hdec 2, hform (8 * 2) ▸ hdec 2⟩
      simp [bytify_implementation_int, hres]
    · by_cases h3 : v ≤ 0x80000000
      · have hm : specSignedMinimal v = .I32 := by simp [specSignedMinimal, h1, h2, h3]
        rw [hm] at hres
        rw [hm]
        refine ⟨writeBytes ord 4 (wrappingAdd 32 (wrapNot 32 v) 1), ?_, writeBytes_length ord 4 _,
          hdec 4, hform (8 * 4) ▸ hdec 4⟩
        simp [bytify_implementation_int, hres]
      · have hm : specSignedMinimal v = .I64 := by simp [specSignedMinimal, h1, h2, h3]
        rw [hm] at hres
        rw [hm]
        refine ⟨writeBytes ord 8 (wrappingAdd 64 (wrapNot 64 v) 1), ?_, writeBytes_length ord 8 _,
          hdec 8, hform (8 * 8) ▸ hdec 8⟩
        simp [bytify_implementation_int, hres]

/-- Witness for C2 at `v = 300`: the resolved width is I16 and the
bytes decode to the two's complement of `-300` at 16 bits, `0xFED4`. -/
theorem claim2_witness :
    (300 : ℕ) < 2 ^ 64 ∧
    int_to_suffix true ⟨"300", 300, .None⟩ = .ok (specSignedMinimal 300) ∧
    ∃ bs, bytify_implementation_int .BE true ⟨"300", 300, .None⟩ = .ok bs ∧
      bs.length = (specSignedMinimal 300).numBytes ∧
      decodeBytes .BE bs
        = ((2 ^ (8 * (specSignedMinimal 300).numBytes) - 1 - 300 % 2 ^ (8 * (specSignedMinimal 300).numBytes)) + 1)
            % 2 ^ (8 * (specSignedMinimal 300).numBytes) ∧
      decodeBytes .BE bs
        = (2 ^ (8 * (specSignedMinimal 300).numBytes) - 300 % 2 ^ (8 * (specSignedMinimal 300).numBytes))
            % 2 ^ (8 * (specSignedMinimal 300).numBytes) :=
  ⟨by norm_num, claim2 .BE ("300") 300 (by norm_num)⟩

end Bytify

namespace Bytify

/-! ## Characterization of suffix reconciliation (shared by C3 and C4) -/

theorem int_minimal_ne_none (neg : Bool) (v : ℕ) : int_minimal neg v ≠ .None := by
  unfold int_minimal
  cases neg <;> split_ifs <;> simp

theorem int_minimal_false_isUnsigned (v : ℕ) : (int_minimal false v).isUnsigned = true := by
  unfold int_minimal
  rw [if_neg (by simp)]
  split_ifs <;> rfl

/-- The reconciliation table of `int_reconcile` is exactly the
compatibility predicate `compatibleSuffix`: for a non-`None` minimal
width `m` and a non-`None` explicit suffix `s`, reconciliation resolves
to `s` when `compatibleSuffix m s v` holds and otherwise fails with
`IncompatibleNumberSuffix` carrying the literal text, the sign, and the
two widths. -/
theorem int_reconcile_characterization (t : String) (v : ℕ) (neg : Bool) (m s : IntSuffix)
    (hm : m ≠ .None) (hs : s ≠ .None) :
    int_reconcile neg ⟨t, v, s⟩ m =
      if compatibleSuffix m s v then .ok s
      else .error (.IncompatibleNumberSuffix t neg m.debugStr s.debugStr) := by
  cases m <;> cases s <;>
    simp_all [int_reconcile, compatibleSuffix, IntSuffix.isUnsigned, IntSuffix.isSigned,
      IntSuffix.numBytes, IntSuffix.debugStr]

end Bytify

namespace Bytify

/-! ## Claim C3 (corrected) -/

/-- **C3 counterexample**: the claim says reconciliation resolves to
the explicit width *exactly when* the explicit suffix is in the same
signedness family as the minimal width and at least as wide.  At the
concrete input `1i16` the minimal width is U8 (unsigned) and the
explicit suffix I16 (signed) — a different family — yet reconciliation
succeeds with I16, so the "exactly when" direction is false. -/
theorem claim3_counterexample :
    int_to_suffix false ⟨"1", 1, .I16⟩ = .ok .I16 ∧
    int_minimal false 1 = .U8 ∧
    (IntSuffix.U8).isUnsigned = true ∧ (IntSuffix.I16).isUnsigned = false := by
  refine ⟨by decide, by decide, by decide, by decide⟩

/-- **C3 amended**: for every integer literal with an explicit suffix,
reconciliation resolves to the explicit width exactly when
`compatibleSuffix` holds — i.e. the explicit suffix is a same-family
widening (or identity) of the minimal width, or the minimal width is
unsigned and the explicit suffix signed and either strictly wider or of
equal bit size with the magnitude below `2 ^ (bits - 1)`; every other
combination (narrowing, a negative-signed value given an unsigned
suffix, or an unsigned→signed cast that does not fit) fails with
`IncompatibleNumberSuffix` carrying the literal text, the sign, and the
two widths involved.  In particular `300` with explicit suffix `u8`
fails with `IncompatibleNumberSuffix` reporting U16 and U8. -/
theorem claim3_amended (t : String) (v : ℕ) (_hv : v < 2 ^ 64) (neg : Bool) (s : IntSuffix)
    (hs : s ≠ .None) :
    (int_to_suffix neg ⟨t, v, s⟩ =
      if compatibleSuffix (int_minimal neg v) s v then .ok s
      else .error (.IncompatibleNumberSuffix t neg (int_minimal neg v).debugStr s.debugStr)) ∧
    int_to_suffix false ⟨t, 300, .U8⟩ =
      .error (.IncompatibleNumberSuffix t false (IntSuffix.U16).debugStr (IntSuffix.U8).debugStr) := by
  constructor
  · rw [int_to_suffix]
    exact int_reconcile_characterization t v neg _ s (int_minimal_ne_none neg v) hs
  · rw [int_to_suffix]
    have h := int_reconcile_characterization t 300 false (int_minimal false 300) .U8
      (int_minimal_ne_none false 300) (by decide)
    rw [show int_minimal false 300 = .U16 from by decide] at h ⊢
    rw [h, if_neg (by decide)]

/-- Witness for C3 (amended) at `200u16`: a same-family widening of the
minimal width U8 resolves to the explicit U16. -/
theorem claim3_witness :
    (200 : ℕ) < 2 ^ 64 ∧ IntSuffix.U16 ≠ IntSuffix.None ∧
    (int_to_suffix false ⟨"200", 200, .U16⟩ =
      if compatibleSuffix (int_minimal false 200) .U16 200 then .ok .U16
      else .error (.IncompatibleNumberSuffix "200" false (int_minimal false 200).debugStr
        (IntSuffix.U16).debugStr)) ∧
    int_to_suffix false ⟨"200", 300, .U8⟩ =
      .error (.IncompatibleNumberSuffix "200" false (IntSuffix.U16).debugStr (IntSuffix.U8).debugStr) :=
  ⟨by norm_num, by decide, claim3_amended ("200") 200 (by norm_num) false .U16 (by decide)⟩

/-! ## Claim C4 -/

/-- **C4**: for every non-negative integer literal (minimal width
unsigned) and a *signed* explicit suffix: a signed suffix of the same
bit size is accepted exactly when the magnitude is strictly below
`2 ^ (bits - 1)` (so `127` with `i8` succeeds and `128` with `i8`
fails), while a strictly larger signed suffix is always accepted. -/
theorem claim4 (t : String) (v : ℕ) (_hv : v < 2 ^ 64) (s : IntSuffix)
    (hsign : s.isSigned = true) :
    ((int_minimal false v).numBytes = s.numBytes →
      (int_to_suffix false ⟨t, v, s⟩ = .ok s ↔ v < 2 ^ (8 * (int_minimal false v).numBytes - 1))) ∧
    ((int_minimal false v).numBytes < s.numBytes →
      int_to_suffix false ⟨t, v, s⟩ = .ok s) := by
  have hs : s ≠ .None := by cases s <;> simp_all [IntSuffix.isSigned]
  have hchar := int_reconcile_characterization t v false (int_minimal false v) s
    (int_minimal_ne_none false v) hs
  rw [int_to_suffix, hchar]
  have hmu : (int_minimal false v).isUnsigned = true := int_minimal_false_isUnsigned v
  have hms : (int_minimal false v).isSigned = false := by
    cases h : int_minimal false v <;> simp_all [IntSuffix.isUnsigned, IntSuffix.isSigned]
  have hsu : s.isUnsigned = false := by
    cases s <;> simp_all [IntSuffix.isUnsigned, IntSuffix.isSigned]
  constructor
  · intro heq
    have hc : compatibleSuffix (int_minimal false v) s v
        = decide (v < 2 ^ (8 * s.numBytes - 1)) := by
      rw [compatibleSuffix, hmu, hms, hsu, hsign, heq]
      simp
    rw [heq, hc]
    by_cases hvlt : v < 2 ^ (8 * s.numBytes - 1)
    · simp [hvlt]
    · simp [hvlt]
  · intro hlt
    have hc : compatibleSuffix (int_minimal false v) s v = true := by
      rw [compatibleSuffix, hmu, hms, hsu, hsign]
      simp [hlt]
    rw [hc]
    simp

/-- Witness for C4: minimal U8 with explicit `i8` — `127i8` resolves to
I8 (since `127 < 2 ^ 7`) while a strictly wider `i16` on `200`
resolves unconditionally. -/
theorem claim4_witness :
    int_to_suffix false ⟨"127", 127, .I8⟩ = .ok .I8 ∧
    int_to_suffix false ⟨"200", 200, .I16⟩ = .ok .I16 := by
  constructor
  · exact ((claim4 ("127") 127 (by norm_num) .I8 (by decide)).1 (by decide)).2 (by decide)
  · exact (claim4 ("200") 200 (by norm_num) .I16 (by decide)).2 (by decide)

end Bytify

namespace Bytify

/-! ## Claim C5 (corrected) -/

/-- **C5 counterexample**: the claim says an identical float suffix is
accepted (`F32` minimal with explicit `f32` resolves to F32, and `F64`
minimal with explicit `f64` resolves to F64).  In the source's
reconciliation table only `(minimal, None)` and `(F32, F64)` succeed,
so both identical-suffix inputs fail with `IncompatibleNumberSuffix`:
`1.0f32` (minimal F32, suffix f32) and a `4e38`-magnitude literal with
suffix f64 (minimal F64, suffix f64) are both rejected. -/
theorem claim5_counterexample :
    float_to_suffix false ⟨"1.0f32", 1, .F32⟩
        = .error (.IncompatibleNumberSuffix ("1.0f32") false ("F32") ("F32")) ∧
    float_to_suffix false ⟨"4e38f64", 400000000000000000000000000000000000000, .F64⟩
        = .error (.IncompatibleNumberSuffix ("4e38f64") false ("F64") ("F64")) :=
  ⟨by decide, by decide⟩

/-- **C5 amended**: float suffix reconciliation accepts only the
absent-suffix case (resolving to the minimal width) and the single
widening F32→f64 (resolving to F64); every other combination — the
identical pairs F32→f32 and F64→f64 as well as the narrowing F64→f32 —
fails with `IncompatibleNumberSuffix` carrying the literal text, the
sign, and the two widths. -/
theorem claim5_amended (t : String) (neg : Bool) (m : ℚ) (sfx : FloatSuffix) :
    float_to_suffix neg ⟨t, m, sfx⟩ =
      if sfx = .None then .ok (specFloatMinimal m)
      else if specFloatMinimal m = .F32 ∧ sfx = .F64 then .ok .F64
      else .error (.IncompatibleNumberSuffix t neg (specFloatMinimal m).debugStr sfx.debugStr) := by
  unfold float_to_suffix specFloatMinimal
  by_cases h : m > 340282347000000000000000000000000000000 <;>
    cases sfx <;> simp [h, FloatSuffix.debugStr]

/-! ## Claim C6 (corrected) -/

/-- **C6 counterexample**: negating the character literal `'a'` fails
with the error kind `UnsupportedLit`, not with
`UnsupportedPrefixedExpression` as the claim states (the source's
negation arm routes non-numeric inner literals to
`Error::unsupported_lit`). -/
theorem claim6_counterexample :
    bytify_implementation .LE [.Unary .Neg (.Lit (.Char 97))]
        = .error (.UnsupportedLit (.Char 97)) ∧
    (Error.UnsupportedLit (.Char 97)).isUnsupportedPrefixedExpression = false :=
  ⟨by decide, by decide⟩

/-- **C6 amended**: for every negated element whose inner literal is a
Character or Text literal, compilation fails with the error kind
`UnsupportedLit` carrying that literal (only Integer and Float literals
may be negated). -/
theorem claim6_amended (dflt : Endianness) (l : Lit) (h : l.isTextual = true) :
    bytify_element dflt (.Unary .Neg (.Lit l)) = .error (.UnsupportedLit l) ∧
    bytify_implementation dflt [.Unary .Neg (.Lit l)] = .error (.UnsupportedLit l) := by
  have he : bytify_element dflt (.Unary .Neg (.Lit l)) = .error (.UnsupportedLit l) := by
    cases l <;> simp_all [Lit.isTextual, bytify_element, bytify_tagged]
  refine ⟨he, ?_⟩
  simp [bytify_implementation, he]

/-- Witness for C6 (amended) at the negated string literal `-"ab"`. -/
theorem claim6_witness :
    bytify_element .BE (.Unary .Neg (.Lit (.Str [97, 98]))) = .error (.UnsupportedLit (.Str [97, 98])) ∧
    bytify_implementation .BE [.Unary .Neg (.Lit (.Str [97, 98]))] = .error (.UnsupportedLit (.Str [97, 98])) :=
  claim6_amended .BE (.Str [97, 98]) (by decide)

/-! ## Claim C7 (corrected) -/

/-- **C7 counterexample**: the claim says byte-order tags are
recognized case-insensitively, e.g. the spelling `Be`.  The source
matches exactly the four spellings `BE`/`be`/`LE`/`le`, so the tag
`Be` fails with `InvalidEndianness`. -/
theorem claim7_counterexample :
    bytify_element .LE (.Type' (.Lit (.Int ⟨"1u16", 1, .U16⟩)) ("Be"))
      = .error (.InvalidEndianness ("Be")) := by decide

/-- **C7 amended**: the byte-order tags `BE`/`be` select big-endian and
`LE`/`le` little-endian for the tagged element only (a case-sensitive
exact match on these four spellings), and every other tag string fails
with `InvalidEndianness`. -/
theorem claim7_amended (dflt : Endianness) (inner : Expr) (ty : String) :
    bytify_element dflt (.Type' inner ("BE")) = bytify_tagged .BE inner ∧
    bytify_element dflt (.Type' inner ("be")) = bytify_tagged .BE inner ∧
    bytify_element dflt (.Type' inner ("LE")) = bytify_tagged .LE inner ∧
    bytify_element dflt (.Type' inner ("le")) = bytify_tagged .LE inner ∧
    (ty ≠ ("BE") → ty ≠ ("be") → ty ≠ ("LE") → ty ≠ ("le") →
      bytify_element dflt (.Type' inner ty) = .error (.InvalidEndianness ty)) := by
  refine ⟨by simp [bytify_element], by simp [bytify_element], by simp [bytify_element],
    by simp [bytify_element], ?_⟩
  intro h1 h2 h3 h4
  simp [bytify_element, h1, h2, h3, h4]

/-- Witness for C7 (amended): the unrecognized tag `xx` fails with
`InvalidEndianness`. -/
theorem claim7_witness :
    bytify_element .LE (.Type' (.Lit (.Char 97)) ("xx")) = .error (.InvalidEndianness ("xx")) :=
  (claim7_amended .LE (.Lit (.Char 97)) ("xx")).2.2.2.2 (by decide) (by decide) (by decide) (by decide)

end Bytify

namespace Bytify

/-! ## Claim C8 -/

/-- **C8**: a byte-order tag overrides the default order for its own
element only: the two-element list `1u16: BE, 1u16: LE` compiles (for
any build default) to exactly `[0x00, 0x01, 0x01, 0x00]`, and an
untagged element is processed with the configured build-time default
order (`LE` unless the big-endian feature is set, `BE` otherwise). -/
theorem claim8 :
    (∀ dflt : Endianness,
      bytify_implementation dflt
        [.Type' (.Lit (.Int ⟨"1u16", 1, .U16⟩)) ("BE"), .Type' (.Lit (.Int ⟨"1u16", 1, .U16⟩)) ("LE")]
        = .ok [0x00, 0x01, 0x01, 0x00]) ∧
    (∀ (big : Bool) (e : Expr), e.isTagged = false →
      bytify_element (DEFAULT_ENDIANNESS big) e = bytify_tagged (DEFAULT_ENDIANNESS big) e) ∧
    DEFAULT_ENDIANNESS false = .LE ∧ DEFAULT_ENDIANNESS true = .BE := by
  refine ⟨?_, ?_, rfl, rfl⟩
  · intro dflt
    cases dflt <;> decide
  · intro big e he
    cases e <;> simp_all [Expr.isTagged, bytify_element]

/-- Witness for C8: an untagged character element under the default
little-endian configuration is processed with order LE. -/
theorem claim8_witness :
    bytify_element (DEFAULT_ENDIANNESS false) (.Lit (.Char 97))
      = bytify_tagged (DEFAULT_ENDIANNESS false) (.Lit (.Char 97)) :=
  claim8.2.1 false (.Lit (.Char 97)) (by decide)

/-! ## Claim C9 -/

theorem encode_utf8_length (c : ℕ) : (encode_utf8 c).length = len_utf8 c := by
  unfold encode_utf8 len_utf8
  split_ifs <;> rfl

theorem utf8Len_flatMap (s : List ℕ) : (s.flatMap encode_utf8).length = utf8Len s := by
  induction s with
  | nil => rfl
  | cons c cs ih => simp [utf8Len, encode_utf8_length, ih]

/-- Decomposition of a successful compilation into per-element chunks:
the output is the concatenation, in input order, of one byte run per
input element, each of which is that element's own successful
encoding. -/
theorem bytify_implementation_chunks (dflt : Endianness) (exprs : List Expr) :
    ∀ out : List ℕ, bytify_implementation dflt exprs = .ok out →
    ∃ chunks : List (List ℕ), chunks.length = exprs.length ∧ out = chunks.flatten ∧
      ∀ i : ℕ, ∀ h1 : i < exprs.length, ∀ h2 : i < chunks.length,
        bytify_element dflt exprs[i] = .ok chunks[i] := by
  induction exprs with
  | nil =>
    intro out h
    simp only [bytify_implementation] at h
    refine ⟨[], rfl, ?_, ?_⟩
    · cases h
      rfl
    · intro i h1 h2
      exact absurd h1 (by simp)
  | cons e rest ih =>
    intro out h
    simp only [bytify_implementation] at h
    rcases he : bytify_element dflt e with err | b
    · rw [he] at h
      exact absurd h (by simp)
    · rw [he] at h
      rcases hr : bytify_implementation dflt rest with err | out'
      · rw [hr] at h
        exact absurd h (by simp)
      · rw [hr] at h
        simp only [Except.ok.injEq] at h
        obtain ⟨chunks, hlen, hjoin, hidx⟩ := ih out' hr
        refine ⟨b :: chunks, by simp [hlen], by simp [← h, hjoin], ?_⟩
        intro i h1 h2
        cases i with
        | zero => simpa using he
        | succ j => simpa using hidx j (by simpa using h1) (by simpa using h2)

/-- Length of a successful integer encoding: the byte run has exactly
the resolved suffix's width, one of 1/2/4/8 bytes. -/
theorem bytify_int_length (o : Endianness) (neg : Bool) (int : LitInt) (bs : List ℕ)
    (h : bytify_implementation_int o neg int = .ok bs) :
    ∃ sfx, int_to_suffix neg int = .ok sfx ∧ bs.length = sfx.numBytes ∧
      (sfx.numBytes = 1 ∨ sfx.numBytes = 2 ∨ sfx.numBytes = 4 ∨ sfx.numBytes = 8) := by
  rcases hres : int_to_suffix neg int with err | sfx <;>
    simp only [bytify_implementation_int, hres] at h
  · exact absurd h (by simp)
  · refine ⟨sfx, rfl, ?_, ?_⟩
    · cases sfx <;> cases neg <;> simp at h <;> (try rw [← h, writeBytes_length]) <;> rfl
    · cases sfx <;> simp_all [IntSuffix.numBytes]

/-- Length of a successful float encoding: the byte run has exactly
the resolved suffix's width, 4 or 8 bytes. -/
theorem bytify_float_length (o : Endianness) (neg : Bool) (f : LitFloat) (bs : List ℕ)
    (h : bytify_implementation_float o neg f = .ok bs) :
    ∃ sfx, float_to_suffix neg f = .ok sfx ∧ bs.length = sfx.numBytes ∧
      (sfx.numBytes = 4 ∨ sfx.numBytes = 8) := by
  rcases hres : float_to_suffix neg f with err | sfx <;>
    simp only [bytify_implementation_float, hres] at h
  · exact absurd h (by simp)
  · refine ⟨sfx, rfl, ?_, ?_⟩
    · cases sfx <;> cases neg <;> simp at h <;> (try rw [← h, writeBytes_length]) <;> rfl
    · cases sfx <;> simp_all [FloatSuffix.numBytes]

/-- **C9**: every successful compilation splits the output into one
contiguous, non-overlapping byte run per input element, in input
order, with the total length the sum of the chunk lengths; the byte
run of each element has exactly its resolved width: 1/2/4/8 bytes for
integers, 4 or 8 bytes for floats, the UTF-8 byte count for a
character, and the UTF-8 byte length for a string — and character and
string encodings are identical under any byte order. -/
theorem claim9 :
    (∀ (dflt : Endianness) (exprs : List Expr) (out : List ℕ),
      bytify_implementation dflt exprs = .ok out →
      ∃ chunks : List (List ℕ),
        chunks.length = exprs.length ∧ out = chunks.flatten ∧
        out.length = (chunks.map List.length).sum ∧
        ∀ i : ℕ, ∀ h1 : i < exprs.length, ∀ h2 : i < chunks.length,
          bytify_element dflt exprs[i] = .ok chunks[i]) ∧
    (∀ (o o' : Endianness) (c : ℕ),
      bytify_implementation_element o (.Char c) = bytify_implementation_element o' (.Char c)) ∧
    (∀ (o o' : Endianness) (s : List ℕ),
      bytify_implementation_element o (.Str s) = bytify_implementation_element o' (.Str s)) ∧
    (∀ (o : Endianness) (c : ℕ) (bs : List ℕ),
      bytify_implementation_element o (.Char c) = .ok bs → bs.length = len_utf8 c) ∧
    (∀ (o : Endianness) (s : List ℕ) (bs : List ℕ),
      bytify_implementation_element o (.Str s) = .ok bs → bs.length = utf8Len s) ∧
    (∀ (o : Endianness) (neg : Bool) (int : LitInt) (bs : List ℕ),
      bytify_implementation_int o neg int = .ok bs →
      ∃ sfx, int_to_suffix neg int = .ok sfx ∧ bs.length = sfx.numBytes ∧
        (sfx.numBytes = 1 ∨ sfx.numBytes = 2 ∨ sfx.numBytes = 4 ∨ sfx.numBytes = 8)) ∧
    (∀ (o : Endianness) (neg : Bool) (f : LitFloat) (bs : List ℕ),
      bytify_implementation_float o neg f = .ok bs →
      ∃ sfx, float_to_suffix neg f = .ok sfx ∧ bs.length = sfx.numBytes ∧
        (sfx.numBytes = 4 ∨ sfx.numBytes = 8)) := by
  refine ⟨?_, ?_, ?_, ?_, ?_, bytify_int_length, bytify_float_length⟩
  · intro dflt exprs out h
    obtain ⟨chunks, hlen, hjoin, hidx⟩ := bytify_implementation_chunks dflt exprs out h
    exact ⟨chunks, hlen, hjoin, by rw [hjoin, List.length_flatten], hidx⟩
  · intro o o' c
    rfl
  · intro o o' s
    rfl
  · intro o c bs h
    simp only [bytify_implementation_element, Except.ok.injEq] at h
    rw [← h, encode_utf8_length]
  · intro o s bs h
    simp only [bytify_implementation_element, Except.ok.injEq] at h
    rw [← h, utf8Len_flatMap]

/-- Witness for C9: the chunk decomposition of the two-element list
`'a', 1u16` compiled little-endian (output `[97, 1, 0]`), and the
integer-width part at `1u16`. -/
theorem claim9_witness :
    (∃ chunks : List (List ℕ),
      chunks.length = [Expr.Lit (.Char 97), Expr.Lit (.Int ⟨"1u16", 1, .U16⟩)].length ∧
      ([97, 1, 0] : List ℕ) = chunks.flatten ∧
      ([97, 1, 0] : List ℕ).length = (chunks.map List.length).sum ∧
      ∀ i : ℕ, ∀ h1 : i < [Expr.Lit (.Char 97), Expr.Lit (.Int ⟨"1u16", 1, .U16⟩)].length,
        ∀ h2 : i < chunks.length,
        bytify_element .LE [Expr.Lit (.Char 97), Expr.Lit (.Int ⟨"1u16", 1, .U16⟩)][i] = .ok chunks[i]) ∧
    (∃ sfx, int_to_suffix false ⟨"1u16", 1, .U16⟩ = .ok sfx ∧ ([1, 0] : List ℕ).length = sfx.numBytes ∧
      (sfx.numBytes = 1 ∨ sfx.numBytes = 2 ∨ sfx.numBytes = 4 ∨ sfx.numBytes = 8)) :=
  ⟨claim9.1 .LE [Expr.Lit (.Char 97), Expr.Lit (.Int ⟨"1u16", 1, .U16⟩)] [97, 1, 0] (by decide),
   claim9.2.2.2.2.2.1 .LE false ⟨"1u16", 1, .U16⟩ [1, 0] (by decide)⟩

/-! ## Claim C10 -/

/-- **C10**: a float literal with no explicit suffix resolves to F64
(8 emitted bytes) exactly when its magnitude exceeds the source's
threshold `3.40282347e+38` (the exact rational `340282347` followed by
30 zeros), and to F32 (4 emitted bytes) otherwise; an explicit `f32`
suffix on a magnitude above the threshold fails with
`IncompatibleNumberSuffix`. -/
theorem claim10 (o : Endianness) (neg : Bool) (t : String) (m : ℚ) :
    (m > 340282347000000000000000000000000000000 →
      float_to_suffix neg ⟨t, m, .None⟩ = .ok .F64 ∧
      ∃ bs, bytify_implementation_float o neg ⟨t, m, .None⟩ = .ok bs ∧ bs.length = 8) ∧
    (¬ m > 340282347000000000000000000000000000000 →
      float_to_suffix neg ⟨t, m, .None⟩ = .ok .F32 ∧
      ∃ bs, bytify_implementation_float o neg ⟨t, m, .None⟩ = .ok bs ∧ bs.length = 4) ∧
    (m > 340282347000000000000000000000000000000 →
      float_to_suffix neg ⟨t, m, .F32⟩ =
        .error (.IncompatibleNumberSuffix t neg (FloatSuffix.F64).debugStr (FloatSuffix.F32).debugStr)) := by
  refine ⟨?_, ?_, ?_⟩
  · intro h
    have hs : float_to_suffix neg ⟨t, m, .None⟩ = .ok .F64 := by
      unfold float_to_suffix
      simp [h]
    refine ⟨hs, ?_⟩
    cases neg with
    | false =>
      exact ⟨writeBytes o 8 (floatBits 11 52 m),
        by simp [bytify_implementation_float, hs], writeBytes_length o 8 _⟩
    | true =>
      exact ⟨writeBytes o 8 (floatBits 11 52 (-m)),
        by simp [bytify_implementation_float, hs], writeBytes_length o 8 _⟩
  · intro h
    have hs : float_to_suffix neg ⟨t, m, .None⟩ = .ok .F32 := by
      unfold float_to_suffix
      simp [h]
    refine ⟨hs, ?_⟩
    cases neg with
    | false =>
      exact ⟨writeBytes o 4 (floatBits 8 23 m),
        by simp [bytify_implementation_float, hs], writeBytes_length o 4 _⟩
    | true =>
      exact ⟨writeBytes o 4 (floatBits 8 23 (-m)),
        by simp [bytify_implementation_float, hs], writeBytes_length o 4 _⟩
  · intro h
    unfold float_to_suffix
    simp [h, FloatSuffix.debugStr]

/-- Witness for C10 at the magnitudes `4e38` (above the threshold) and
`1` (below): F64 with 8 bytes, F32 with 4 bytes, and the failing `f32`
request above the threshold. -/
theorem claim10_witness :
    (float_to_suffix false ⟨"4e38", 400000000000000000000000000000000000000, .None⟩ = .ok .F64 ∧
      ∃ bs, bytify_implementation_float .LE false ⟨"4e38", 400000000000000000000000000000000000000, .None⟩
        = .ok bs ∧ bs.length = 8) ∧
    (float_to_suffix false ⟨"1.0", 1, .None⟩ = .ok .F32 ∧
      ∃ bs, bytify_implementation_float .LE false ⟨"1.0", 1, .None⟩ = .ok bs ∧ bs.length = 4) ∧
    float_to_suffix false ⟨"4e38", 400000000000000000000000000000000000000, .F32⟩ =
      .error (.IncompatibleNumberSuffix ("4e38") false ("F64") ("F32")) :=
  ⟨(claim10 .LE false ("4e38") 400000000000000000000000000000000000000).1 (by decide),
   (claim10 .LE false ("1.0") 1).2.1 (by decide),
   (claim10 .LE false ("4e38") 400000000000000000000000000000000000000).2.2 (by decide)⟩

end Bytify
